import Mathlib

/-!
# Verification of cdk-proserve-lib source files

A shallow embedding, over `List Char` strings, of:

* `src/constructs/ec2-image-builder-start/index.ts` — the `Ec2ImageBuilderStart`
  construct (input validation, the `startImagePipelineExecution` SDK call of the
  custom resource, and the CloudFormation wait-condition resources);
* the `DynamoDBProvisionTable` construct's static per-stack provider cache;
* the WAF managed-rule enum generator script (`generateAndInjectAwsManagedRuleEnum`),
  including its marker-delimited text injection;
* the README library generator script (`parseApiDoc`, `generateMarkdown` and the
  `README.md` section replacement).

Files and strings are modelled as `List Char` (Unicode scalar values); machine
behaviour that can fail (`readFileSync`, `client.send`, thrown `Error`s) is
modelled with `Option`/`Except`.
-/

/-! ## Generic substring machinery

`firstIdx pat s` models JavaScript `s.indexOf(pat)` (as `Option` instead of `-1`).
-/

/-- Index of the first occurrence of `pat` in `s`, if any (JS `String.indexOf`). -/
def firstIdx (pat : List Char) : List Char → Option Nat
  | [] => if pat = [] then some 0 else none
  | c :: rest =>
      if pat.isPrefixOf (c :: rest) then some 0
      else (firstIdx pat rest).map (fun n => n + 1)

/-- JS `s.includes(pat)`. -/
def includesStr (pat s : List Char) : Bool := (firstIdx pat s).isSome

/-! ## Ec2ImageBuilderStart (src/constructs/ec2-image-builder-start/index.ts) -/

/-- `Duration` from aws-cdk-lib, reduced to its whole-second value. -/
structure Duration where
  seconds : Nat
deriving DecidableEq

def Duration.toSeconds (d : Duration) : Nat := d.seconds

def Duration.hours (n : Nat) : Duration := ⟨n * 3600⟩

/-- `Ec2ImageBuilderStart.WaitForCompletionProps`: an SNS topic (identified by a
name) and an optional timeout. -/
structure WaitForCompletionProps where
  topic : List Char
  timeout : Option Duration
deriving DecidableEq

/-- `Ec2ImageBuilderStartProps` (the `lambdaConfiguration`/`encryption` fields play
no role in the verified behaviour and are omitted). -/
structure Ec2ImageBuilderStartProps where
  pipelineArn : List Char
  hash : Option (List Char)
  waitForCompletion : Option WaitForCompletionProps
deriving DecidableEq

/-- The `AwsSdkCall` value produced by `Ec2ImageBuilderStart.start`: the single
SDK action with its `parameters` object (`imagePipelineArn`) and physical id. -/
structure AwsSdkCall where
  action : List Char
  service : List Char
  imagePipelineArn : List Char
  physicalResourceId : List Char
deriving DecidableEq

/-- The parts of the `AwsCustomResource` the constructor configures that the
claims are about. -/
structure AwsCustomResourceProps where
  onCreate : AwsSdkCall
  onUpdate : AwsSdkCall
  resourceType : List Char
deriving DecidableEq

/-- The wait resources created by `waitForTopicSignal`: the
`CfnWaitConditionHandle`, the `NodejsFunction` subscribed to the SNS topic, and
the `CfnWaitCondition` with its stringified timeout. -/
structure WaitResources where
  waitHandleId : List Char
  subscribedTopic : List Char
  waiterId : List Char
  waiterTimeout : List Char
deriving DecidableEq

/-- The synthesized result of a successful `Ec2ImageBuilderStart` construction. -/
structure Ec2ImageBuilderStart where
  hash : List Char
  cr : AwsCustomResourceProps
  wait : Option WaitResources
deriving DecidableEq

/-- Modelled from the spec: the shared `validate(value, ValidationTypes.AWS_ARN)`
helper lives in `src/common/validate`, which is not among the provided source
files; the spec only says construction performs "infrastructure-time validation
(ARN format ...)" that "throws synchronously".  We model the AWS ARN format check
as: the value starts with `arn:` and has at least five further colon-separated
components (`arn:partition:service:region:account:resource`). -/
def validateAwsArn (s : List Char) : Bool :=
  ("arn:".toList).isPrefixOf s && 5 ≤ (s.filter (fun c => c = ':')).length

/-- `Ec2ImageBuilderStart.start`: the AWS SDK call configuration. -/
def startCall (hash pipelineArn : List Char) : AwsSdkCall :=
  { action := ("startImagePipelineExecution".toList)
  , service := ("Imagebuilder".toList)
  , imagePipelineArn := pipelineArn
  , physicalResourceId := hash }

/-- `Ec2ImageBuilderStart.waitForTopicSignal`: builds the wait handle, signal
function subscription and wait condition only when `waitForCompletion` is set. -/
def waitForTopicSignal (hash : List Char) (props : Ec2ImageBuilderStartProps) :
    Option WaitResources :=
  match props.waitForCompletion with
  | none => none
  | some w =>
      some { waitHandleId := ("WaitHandle".toList) ++ hash
           , subscribedTopic := w.topic
           , waiterId := ("Waiter".toList) ++ hash
           , waiterTimeout :=
               Nat.toDigits 10 ((w.timeout.getD (Duration.hours 12)).toSeconds) }

/-- `props.waitForCompletion?.timeout?.toSeconds() ?? 0`. -/
def timeoutSecondsOf (props : Ec2ImageBuilderStartProps) : Nat :=
  ((props.waitForCompletion.bind (fun w => w.timeout)).map Duration.toSeconds).getD 0

/-- `props.hash?.length ?? 0`. -/
def hashLenOf (props : Ec2ImageBuilderStartProps) : Nat :=
  (props.hash.map List.length).getD 0

/-- The `Ec2ImageBuilderStart` constructor: validation, then the custom resource
with its `onCreate`/`onUpdate` SDK calls, then `waitForTopicSignal`.  A thrown
`Error` is modelled as `Except.error` of the message. -/
def mkEc2ImageBuilderStart (props : Ec2ImageBuilderStartProps) :
    Except (List Char) Ec2ImageBuilderStart :=
  if 43200 < timeoutSecondsOf props then
    .error ("Timeout cannot exceed 12 hours".toList)
  else if 7 < hashLenOf props then
    .error ("Hash must be 7 characters or less".toList)
  else if validateAwsArn props.pipelineArn = false then
    .error ("Value provided is not a valid AWS ARN".toList)
  else
    let hash := props.hash.getD ("Run1x".toList)
    .ok { hash := hash
        , cr := { onCreate := startCall hash props.pipelineArn
                , onUpdate := startCall hash props.pipelineArn
                , resourceType := ("Custom::Ec2ImageBuilderStart".toList) }
        , wait := waitForTopicSignal hash props }

/-- Whether an `Except` result is a success (no `Error` escaped). -/
def isOkE {ε α : Type} : Except ε α → Bool
  | .ok _ => true
  | .error _ => false

/-! ## DynamoDBProvisionTable provider cache

`DynamoDBProvisionTable.serviceTokens` is a static `Map<string, Provider>` keyed
by `Stack.of(scope).node.id`.  We model the mutable static map as explicit state
passing; a `Provider` is identified by its allocation order (JS object identity).
-/

/-- A `Provider` object, identified by allocation order. -/
structure Provider where
  pid : Nat
deriving DecidableEq, Inhabited

/-- The static state: the `serviceTokens` map (insertion list, newest first) and
the number of providers ever built. -/
structure ProviderCache where
  tokens : List (List Char × Provider)
  nextId : Nat
deriving DecidableEq

/-- `serviceTokens.has`/`get` combined (`none` = absent). -/
def findToken : List (List Char × Provider) → List Char → Option Provider
  | [], _ => none
  | (k, p) :: rest, stackId => if k = stackId then some p else findToken rest stackId

/-- `DynamoDBProvisionTable.getOrBuildProvider`: return the cached provider for
the stack's node id, or build one (a fresh `Provider` with its OnEvent Lambda)
and store it. -/
def getOrBuildProvider (st : ProviderCache) (stackId : List Char) :
    Provider × ProviderCache :=
  match findToken st.tokens stackId with
  | some p => (p, st)
  | none =>
      (⟨st.nextId⟩, { tokens := (stackId, ⟨st.nextId⟩) :: st.tokens
                    , nextId := st.nextId + 1 })

/-- A sequence of `DynamoDBProvisionTable` constructions, given the node ids of
their enclosing stacks; returns the provider each construction received. -/
def runConstructions : ProviderCache → List (List Char) → List Provider × ProviderCache
  | st, [] => ([], st)
  | st, stackId :: rest =>
      let r := getOrBuildProvider st stackId
      let rr := runConstructions r.2 rest
      (r.1 :: rr.1, rr.2)

/-- The initial (empty) static cache. -/
def emptyCache : ProviderCache := ⟨[], 0⟩

/-! ## WAF managed-rule enum generator (`generateAndInjectAwsManagedRuleEnum`) -/

/-- An entry of the `ListAvailableManagedRuleGroups` response. -/
structure ManagedRuleGroupSummary where
  name : Option (List Char)
  description : Option (List Char)
deriving DecidableEq

def isUpperAZ (c : Char) : Bool := 'A' ≤ c && c ≤ 'Z'

def isLowerAZ (c : Char) : Bool := 'a' ≤ c && c ≤ 'z'

/-- Global replace of `SQLi` by `SQL_DATABASE` (left-to-right, non-overlapping),
as `formattedName.replace(/SQLi/g, 'SQL_DATABASE')`. -/
def replaceSQLi : List Char → List Char
  | 'S' :: 'Q' :: 'L' :: 'i' :: rest => ("SQL_DATABASE".toList) ++ replaceSQLi rest
  | c :: rest => c :: replaceSQLi rest
  | [] => []

/-- Global replace for `/([A-Z]+)([A-Z][a-z])/g` with `'$1_$2'`: an underscore is
inserted before the last capital of a capital run that is followed by a lower-case
letter, and scanning resumes after the match, which is what the regex engine does. -/
def splitCaps1 : List Char → List Char
  | c1 :: c2 :: c3 :: rest =>
      if isUpperAZ c1 && isUpperAZ c2 && isLowerAZ c3 then
        c1 :: '_' :: c2 :: c3 :: splitCaps1 rest
      else c1 :: splitCaps1 (c2 :: c3 :: rest)
  | s => s

/-- Global replace for `/([a-z])([A-Z])/g` with `'$1_$2'`. -/
def splitCaps2 : List Char → List Char
  | c1 :: c2 :: rest =>
      if isLowerAZ c1 && isUpperAZ c2 then c1 :: '_' :: c2 :: splitCaps2 rest
      else c1 :: splitCaps2 (c2 :: rest)
  | s => s

/-- `formatRuleGroupName`: strip the `AWSManagedRules` prefix, expand `SQLi`,
split camel case with underscores and upper-case the result. -/
def formatRuleGroupName (name : List Char) : List Char :=
  let f1 := if ("AWSManagedRules".toList).isPrefixOf name then
              name.drop ("AWSManagedRules".toList).length
            else name
  ((splitCaps2 (splitCaps1 (replaceSQLi f1))).map Char.toUpper)

/-- JS `Map` construction from a list of key/value pairs: a duplicate key keeps
its first position but takes the latest value. -/
def jsMapInsert (m : List (List Char × List Char)) (k v : List Char) :
    List (List Char × List Char) :=
  if (m.map Prod.fst).contains k then
    m.map (fun kv => if kv.1 = k then (k, v) else kv)
  else m ++ [(k, v)]

/-- `new Map(ruleGroups.filter(r => r.Name && r.Description).map(r => [r.Name, r.Description]))`,
entries in iteration order. -/
def buildRuleGroupMap (ruleGroups : List ManagedRuleGroupSummary) :
    List (List Char × List Char) :=
  (ruleGroups.filterMap (fun r =>
      match r.name, r.description with
      | some n, some d => some (n, d)
      | _, _ => none)).foldl (fun m nd => jsMapInsert m nd.1 nd.2) []

/-- One enum entry: `        /** D */\n        NAME = 'RULENAME'`. -/
def enumEntryText (ruleName description : List Char) : List Char :=
  ("        /** ".toList) ++ description ++ (" */\n        ".toList) ++
    formatRuleGroupName ruleName ++ (" = ".toList) ++
    '\'' :: ruleName ++ ['\'']

/-- `entries.join(',\n\n')`. -/
def joinCommaNlNl : List (List Char) → List Char
  | [] => []
  | [x] => x
  | x :: y :: rest => x ++ (",\n\n".toList) ++ joinCommaNlNl (y :: rest)

/-- The generated enum string. -/
def mkEnumString (ruleGroups : List ManagedRuleGroupSummary) : List Char :=
  ("    export enum AwsManagedRuleGroup \x7b\n".toList) ++
    joinCommaNlNl ((buildRuleGroupMap ruleGroups).map
      (fun nd => enumEntryText nd.1 nd.2)) ++
    ("\n    \x7d".toList)

/-- The start marker `/** WAF Managed Rule Groups */`. -/
def startMarker : List Char := ("/** WAF Managed Rule Groups */".toList)

/-- The end marker `/** End WAF Managed Rule Groups */`. -/
def endMarker : List Char := ("/** End WAF Managed Rule Groups */".toList)

/-- The text the generator splices between the retained prefix and suffix:
`'\n' + enumString + '\n    '`. -/
def wrapEnum (enumString : List Char) : List Char :=
  '\n' :: enumString ++ '\n' :: ("    ".toList)

/-- The marker-delimited injection (lines 70-86 of the generator): find both
markers with `indexOf`; on success the new file content is
`slice(0, startIndex + startMarker.length) + '\n' + enumString + '\n    ' + slice(endIndex)`;
if either marker is missing (`-1`) the generator throws instead (`none`). -/
def injectEnum (fileContent enumString : List Char) : Option (List Char) :=
  match firstIdx startMarker fileContent, firstIdx endMarker fileContent with
  | some startIndex, some endIndex =>
      some (fileContent.take (startIndex + startMarker.length) ++
            wrapEnum enumString ++ fileContent.drop endIndex)
  | _, _ => none

/-- The try-block of `generateAndInjectAwsManagedRuleEnum`.  `sendResult` is the
outcome of `client.send` (`none`: the SDK call rejected), its payload the
optional `ManagedRuleGroups` field of the response; `fileContent` is the outcome
of `readFileSync` on `src/constructs/web-application-firewall/index.ts` (`none`:
the read threw).  Returns the new file content written back on success. -/
def generateAndInjectBody (sendResult : Option (Option (List ManagedRuleGroupSummary)))
    (fileContent : Option (List Char)) : Except (List Char) (List Char) :=
  match sendResult with
  | none => .error ("client.send rejected".toList)
  | some response =>
      let ruleGroups := response.getD []
      if ruleGroups.length = 0 then .error ("No managed rule groups found".toList)
      else
        let enumString := mkEnumString ruleGroups
        match fileContent with
        | none => .error ("readFileSync threw".toList)
        | some content =>
            match injectEnum content enumString with
            | none => .error ("Could not find injection markers in the file".toList)
            | some newContent => .ok newContent

/-- `generateAndInjectAwsManagedRuleEnum`: the whole body runs inside
`try ... catch (error) { console.error(...) }`, so a thrown error is converted
into a logged message (`Sum.inl`) and never propagates. -/
def generateAndInjectAwsManagedRuleEnum
    (sendResult : Option (Option (List ManagedRuleGroupSummary)))
    (fileContent : Option (List Char)) :
    Except (List Char) (Sum (List Char) (List Char)) :=
  match generateAndInjectBody sendResult fileContent with
  | .error e => .ok (.inl e)
  | .ok written => .ok (.inr written)

/-! ## README library generator (`update-readme-library.ts`) -/

/-- `content.split('\n')`. -/
def splitOnNl : List Char → List (List Char)
  | [] => [[]]
  | c :: rest =>
      if c = '\n' then [] :: splitOnNl rest
      else
        match splitOnNl rest with
        | [] => [[c]]
        | l :: ls => (c :: l) :: ls

/-- JS `String.prototype.trim` (whitespace from both ends). -/
def jsTrim (s : List Char) : List Char :=
  ((s.dropWhile Char.isWhitespace).reverse.dropWhile Char.isWhitespace).reverse

/-- A parsed documentation item.  `tag` is a ghost field recording allocation
order; it models JS object identity (each `{ name, description }` object the
parser allocates gets a distinct tag) and is ignored by the text generators. -/
structure DocItem where
  name : List Char
  description : List Char
  tag : Nat
deriving DecidableEq

/-- The record returned by `parseApiDoc`. -/
structure DocItems where
  constructs : List DocItem
  aspects : List DocItem
  patterns : List DocItem
deriving DecidableEq

/-- The loop state of `parseApiDoc`: the three accumulators, the
`inIgnoredSection` flag, `currentItem`, and the ghost allocation counter. -/
structure ParseState where
  constructs : List DocItem
  aspects : List DocItem
  patterns : List DocItem
  inIgnoredSection : Bool
  currentItem : Option DocItem
  nextTag : Nat
deriving DecidableEq

/-- The first match of `/id="([^"]+)"/` on a line: scan for `id="`, take the
(greedy, non-empty) run of non-quote characters, and require the closing quote;
if the capture would be empty or unterminated the engine retries further right. -/
def idCapture : List Char → Option (List Char)
  | [] => none
  | c :: rest =>
      let afterKey := (c :: rest).drop 4
      let cap := afterKey.takeWhile (fun ch => ch ≠ '"')
      if ("id=\"".toList).isPrefixOf (c :: rest) ∧ cap ≠ [] ∧
          cap.length < afterKey.length then
        some cap
      else idCapture rest

/-- The description-collecting `while` loop: starting right after the header
line, gather trimmed non-empty lines, stopping at a `#`/`---` line or at a blank
line once some description was found, and skipping `- *Implements:*` lines. -/
def scanDescription : List (List Char) → List (List Char) → Bool → List (List Char)
  | [], acc, _ => acc.reverse
  | l :: rest, acc, foundDescription =>
      let nextLine := jsTrim l
      if ("#".toList).isPrefixOf nextLine ∨ ("---".toList).isPrefixOf nextLine then
        acc.reverse
      else if foundDescription ∧ nextLine = [] then acc.reverse
      else if ("- *Implements:*".toList).isPrefixOf nextLine then
        scanDescription rest acc foundDescription
      else if nextLine ≠ [] then scanDescription rest (nextLine :: acc) true
      else scanDescription rest acc foundDescription

/-- `description.join(' ')`. -/
def joinSpace : List (List Char) → List Char
  | [] => []
  | [x] => x
  | x :: y :: rest => x ++ ' ' :: joinSpace (y :: rest)

/-- The "process previous item" block: when a new header with a parsed id is
met while `currentItem` is still live, the previous item is categorized using
the id of the *new* line. -/
def pushPrevious (st : ParseState) (id : List Char) : ParseState :=
  match st.currentItem with
  | none => st
  | some cur =>
      if includesStr (".patterns.".toList) id then
        { st with patterns := st.patterns ++ [cur] }
      else if includesStr (".aspects.".toList) id then
        { st with aspects := st.aspects ++ [cur] }
      else if includesStr (".constructs.".toList) id ∨
          ¬ includesStr (".types.".toList) id then
        { st with constructs := st.constructs ++ [cur] }
      else st

/-- Processing of a `### ` header line that contains `id="` (`line` is already
trimmed; `rest` are the lines after it, used for the description lookahead). -/
def parseHeaderLine (st : ParseState) (line : List Char) (rest : List (List Char)) :
    ParseState :=
  match idCapture line with
  | none => st
  | some rawId =>
      let id := rawId.map Char.toLower
      let st1 := pushPrevious st id
      if includesStr (".types.".toList) id then { st1 with currentItem := none }
      else
        let name := (line.drop 4).takeWhile (fun ch => ch ≠ ' ')
        let item : DocItem := ⟨name, joinSpace (scanDescription rest [] false), st1.nextTag⟩
        if includesStr (".patterns.".toList) id then
          { st1 with patterns := st1.patterns ++ [item], currentItem := none
                   , nextTag := st1.nextTag + 1 }
        else if includesStr (".aspects.".toList) id then
          { st1 with aspects := st1.aspects ++ [item], currentItem := none
                   , nextTag := st1.nextTag + 1 }
        else if includesStr (".constructs.".toList) id then
          { st1 with constructs := st1.constructs ++ [item], currentItem := none
                   , nextTag := st1.nextTag + 1 }
        else
          { st1 with currentItem := some item, nextTag := st1.nextTag + 1 }

/-- One iteration of the main `for` loop of `parseApiDoc`. -/
def parseLine (st : ParseState) (l : List Char) (rest : List (List Char)) : ParseState :=
  let line := jsTrim l
  if ("## ".toList).isPrefixOf line ∧
      (("## Structs".toList).isPrefixOf line ∨ ("## Enum".toList).isPrefixOf line) then
    { st with inIgnoredSection := true }
  else
    let st0 := if ("## ".toList).isPrefixOf line then
                 { st with inIgnoredSection := false }
               else st
    if st0.inIgnoredSection then st0
    else if ("### ".toList).isPrefixOf line ∧ includesStr ("id=\"".toList) line then
      parseHeaderLine st0 line rest
    else st0

/-- The main loop.  The loop index advances one line per iteration; the
description scan only peeks ahead. -/
def parseLinesGo : ParseState → List (List Char) → ParseState
  | st, [] => st
  | st, l :: rest => parseLinesGo (parseLine st l rest) rest

/-- `parseApiDoc`: run the loop over the lines of the file and flush a leftover
`currentItem` into `constructs`. -/
def parseApiDoc (content : List Char) : DocItems :=
  let final := parseLinesGo ⟨[], [], [], false, none, 0⟩ (splitOnNl content)
  match final.currentItem with
  | some cur => { constructs := final.constructs ++ [cur]
                , aspects := final.aspects, patterns := final.patterns }
  | none => { constructs := final.constructs
            , aspects := final.aspects, patterns := final.patterns }

/-- Global replace `/\s+/g → '-'`: each maximal whitespace run becomes one dash. -/
def collapseWs (s : List Char) : List Char :=
  match s with
  | [] => []
  | c :: rest =>
      if Char.isWhitespace c then '-' :: collapseWs (rest.dropWhile Char.isWhitespace)
      else c :: collapseWs rest
termination_by s.length
decreasing_by
  · simp only [List.length_cons]
    exact Nat.lt_succ_of_le (List.dropWhile_sublist _).length_le
  · simp

/-- `name.toLowerCase().replace(/\s+/g, '-')`. -/
def anchorOf (name : List Char) : List Char := collapseWs (name.map Char.toLower)

/-- `- [**${name}**](API.md#${anchor}-): ${description}\n`. -/
def itemLine (it : DocItem) : List Char :=
  ("- [**".toList) ++ it.name ++ ("**](API.md#".toList) ++ anchorOf it.name ++
    ("-): ".toList) ++ it.description ++ ['\n']

def itemLines (items : List DocItem) : List Char := (items.map itemLine).flatten

/-- `Count: ${n}\n\n`. -/
def countLine (n : Nat) : List Char :=
  ("Count: ".toList) ++ Nat.toDigits 10 n ++ ("\n\n".toList)

/-- `Total: ${n}\n\n`. -/
def totalLine (n : Nat) : List Char :=
  ("Total: ".toList) ++ Nat.toDigits 10 n ++ ("\n\n".toList)

def constructsBlurb : List Char :=
  ("### 🧱 Constructs\n\nConstructs are the basic building blocks of AWS Cloud Development Kit (AWS CDK) applications. A construct is a component within your application that represents one or more AWS CloudFormation resources and their configuration. You build your application, piece by piece, by importing and configuring constructs. To learn more about constructs, check out the [AWS CDK documentation](https://docs.aws.amazon.com/cdk/v2/guide/constructs.html).\n\n".toList)

def aspectsBlurb : List Char :=
  ("\n### 🎭 Aspects\n\nAspects are a way to apply an operation to all constructs in a given scope. The aspect could modify the constructs, such as by adding tags. Or it could verify something about the state of the constructs, such as making sure that all buckets are encrypted. To learn more about aspects, check out the [AWS CDK documentation](https://docs.aws.amazon.com/cdk/v2/guide/aspects.html).\n\n".toList)

def patternsBlurb : List Char :=
  ("\n### 🎯 Patterns\n\nPatterns are higher-level abstractions that combine multiple constructs and their configurations to form an opinionated solution. They help developers implement best practices and reduce the amount of code needed to build well-architected infrastructure. Patterns typically orchestrate multiple AWS services together in a way that follows AWS best practices. To learn more about patterns, check out the [AWS CDK documentation](https://docs.aws.amazon.com/cdk/v2/guide/constructs.html#constructs_lib_levels).\n\n".toList)

/-- `generateMarkdown`: the Library section body, appended exactly in source
order (total, constructs header/blurb/count/items, aspects, patterns). -/
def generateMarkdown (constructs aspects patterns : List DocItem) : List Char :=
  totalLine (constructs.length + aspects.length + patterns.length) ++
  constructsBlurb ++ countLine constructs.length ++ itemLines constructs ++
  aspectsBlurb ++ countLine aspects.length ++ itemLines aspects ++
  patternsBlurb ++ countLine patterns.length ++ itemLines patterns

/-- The literal `## 📚 Library` the replacement regex starts at. -/
def libHeader : List Char := ("## 📚 Library".toList)

/-- The static lead-in of the new Library section (the template literal around
`${markdown}`). -/
def newLibrarySection (markdown : List Char) : List Char :=
  ("## 📚 Library\n\nThe library consists of [constructs](#-constructs), [aspects](#-aspects), and [patterns](#-patterns) that you can utilize in AWS CDK applications.\n\n".toList)
    ++ markdown

/-- The end of the lazy match of `/## 📚 Library[\s\S]*?(?=\n## |$)/` starting
the scan at `t`: the first position at or after `t` where `\n## ` follows (the
lookahead), or the end of the input (`$`, no `m` flag). -/
def findEnd (readme : List Char) (t : Nat) : Nat :=
  if t < readme.length then
    if ("\n## ".toList).isPrefixOf (readme.drop t) then t
    else findEnd readme (t + 1)
  else readme.length
termination_by readme.length - t
decreasing_by omega

/-- `readmeContent.replace(/## 📚 Library[\s\S]*?(?=\n## |$)/, newLibrarySection)`:
replace the first match (if the literal never occurs, `replace` returns the
input unchanged). -/
def replaceLibrary (readme sectionNew : List Char) : List Char :=
  match firstIdx libHeader readme with
  | none => readme
  | some i =>
      readme.take i ++ sectionNew ++ readme.drop (findEnd readme (i + libHeader.length))

/-- The top level of `update-readme-library.ts` (it has no `try`/`catch`): read
`API.md`, parse it, generate the markdown, read `README.md`, splice the new
Library section and write the result.  A failing `readFileSync` (modelled by
`none`) throws, and the error propagates out of the script. -/
def runReadmeScript (apiFile readmeFile : Option (List Char)) :
    Except (List Char) (List Char) :=
  match apiFile with
  | none => .error ("ENOENT: no such file or directory, open API.md".toList)
  | some apiContent =>
      let apiData := parseApiDoc apiContent
      let markdown := generateMarkdown apiData.constructs apiData.aspects apiData.patterns
      match readmeFile with
      | none => .error ("ENOENT: no such file or directory, open README.md".toList)
      | some readmeContent =>
          .ok (replaceLibrary readmeContent (newLibrarySection markdown))

/-- The tags of the items already pushed into the three accumulator lists. -/
def listTags (st : ParseState) : List Nat :=
  (st.constructs ++ st.aspects ++ st.patterns).map DocItem.tag

/-- The tags of the items of a final `DocItems` value. -/
def docTags (d : DocItems) : List Nat :=
  (d.constructs ++ d.aspects ++ d.patterns).map DocItem.tag

/-- Parser-state invariant: the pushed tags are pairwise distinct, every tag is
below the allocation counter, and a live `currentItem` has a fresh tag that is
not in any list. -/
def ParseInv (st : ParseState) : Prop :=
  (listTags st).Nodup ∧
  (∀ t ∈ listTags st, t < st.nextTag) ∧
  (∀ c, st.currentItem = some c → c.tag < st.nextTag ∧ c.tag ∉ listTags st)

/-! ## Concrete inputs used by witnesses and counterexamples -/

/-- A well-formed pipeline ARN. -/
def arnEx : List Char :=
  ("arn:aws:imagebuilder:us-east-1:123456789012:image-pipeline/my-pipe".toList)

/-- Props with a timeout over 12 hours. -/
def propsTimeoutEx : Ec2ImageBuilderStartProps :=
  { pipelineArn := arnEx, hash := none
  , waitForCompletion := some { topic := ("Topic".toList), timeout := some ⟨43201⟩ } }

/-- Props sitting exactly on both bounds (timeout 43200 s, 7-character hash). -/
def propsBoundaryEx : Ec2ImageBuilderStartProps :=
  { pipelineArn := arnEx, hash := some ("abcdefg".toList)
  , waitForCompletion := some { topic := ("Topic".toList), timeout := some ⟨43200⟩ } }

/-- Props with no hash and no waitForCompletion. -/
def propsPlainEx : Ec2ImageBuilderStartProps :=
  { pipelineArn := arnEx, hash := none, waitForCompletion := none }

/-- Props with waitForCompletion but no explicit timeout. -/
def propsWaitDefaultEx : Ec2ImageBuilderStartProps :=
  { pipelineArn := arnEx, hash := some ("h1".toList)
  , waitForCompletion := some { topic := ("Topic".toList), timeout := none } }

/-- A construction sequence: two stacks, the first one used twice. -/
def stackSeqEx : List (List Char) := [("StackA".toList), ("StackB".toList), ("StackA".toList)]

/-- A web-application-firewall source file with both markers in order. -/
def wafFileEx : List Char :=
  ("export class Waf \x7b\n    /** WAF Managed Rule Groups */\n    old\n    /** End WAF Managed Rule Groups */\n\x7d\n".toList)

/-- File content where the end marker precedes the start marker: both markers
occur, but re-running the injection grows the file again. -/
def wafFileSwappedEx : List Char := endMarker ++ startMarker

/-- An enum body used in the idempotence statements. -/
def enumEx : List Char := ("    export enum AwsManagedRuleGroup \x7b\n    \x7d".toList)

/-- A small `API.md`. -/
def apiMdEx : List Char :=
  ("## API Reference\n\n### Foo <a name=\"Foo\" id=\"lib.constructs.Foo\"></a>\n\nA construct.\n\n### Bar <a name=\"Bar\" id=\"lib.aspects.Bar\"></a>\n\nAn aspect.\n\n### Qux <a name=\"Qux\" id=\"lib.types.Qux\"></a>\n\nA type.\n\n### Pat <a name=\"Pat\" id=\"lib.patterns.Pat\"></a>\n\nA pattern.\n".toList)

/-- A small `README.md` with a Library section followed by another section. -/
def readmeEx : List Char :=
  ("# cdk-lib\n\nintro\n\n## 📚 Library\n\nold body\n\n## License\n\nApache-2.0\n".toList)

/-- A `### ` header line whose id contains `.types.`. -/
def typesLineEx : List Char := ("### T <a name=\"T\" id=\"lib.types.T\"></a>".toList)

/-- A parser state holding a live current item. -/
def parseStateEx : ParseState :=
  { constructs := [⟨("C0".toList), ("d".toList), 0⟩], aspects := [], patterns := []
  , inIgnoredSection := false, currentItem := some ⟨("L".toList), ("d".toList), 1⟩
  , nextTag := 2 }

/-- The result of constructing with `propsPlainEx`. -/
def ec2ResultPlainEx : Ec2ImageBuilderStart :=
  { hash := ("Run1x".toList)
  , cr := { onCreate := startCall ("Run1x".toList) arnEx
          , onUpdate := startCall ("Run1x".toList) arnEx
          , resourceType := ("Custom::Ec2ImageBuilderStart".toList) }
  , wait := none }

/-- The result of constructing with `propsWaitDefaultEx`. -/
def ec2ResultWaitDefaultEx : Ec2ImageBuilderStart :=
  { hash := ("h1".toList)
  , cr := { onCreate := startCall ("h1".toList) arnEx
          , onUpdate := startCall ("h1".toList) arnEx
          , resourceType := ("Custom::Ec2ImageBuilderStart".toList) }
  , wait := some { waitHandleId := ("WaitHandleh1".toList)
                 , subscribedTopic := ("Topic".toList)
                 , waiterId := ("Waiterh1".toList)
                 , waiterTimeout := ("43200".toList) } }

/-! # Theorems

## Substring lemmas for `firstIdx` -/

theorem prefixOf_eq_true_iff {l1 l2 : List Char} :
    l1.isPrefixOf l2 = true ↔ l1 <+: l2 := List.isPrefixOf_iff_prefix

theorem firstIdx_some_occ {pat s : List Char} {i : Nat} (h : firstIdx pat s = some i) :
    pat <+: s.drop i := by
  induction s generalizing i with
  | nil =>
      by_cases hp : pat = ([] : List Char)
      · simp only [firstIdx, if_pos hp, Option.some.injEq] at h
        simp [← h, hp]
      · simp [firstIdx, hp] at h
  | cons c rest ih =>
      by_cases hpre : pat.isPrefixOf (c :: rest)
      · simp only [firstIdx, if_pos hpre, Option.some.injEq] at h
        simpa [← h] using prefixOf_eq_true_iff.mp hpre
      · simp only [firstIdx, if_neg hpre, Option.map_eq_some'] at h
        obtain ⟨i', h1, h2⟩ := h
        subst h2
        rw [List.drop_succ_cons]
        exact ih h1

theorem firstIdx_some_min {pat s : List Char} {i : Nat} (h : firstIdx pat s = some i) :
    ∀ j, j < i → ¬ pat <+: s.drop j := by
  induction s generalizing i with
  | nil =>
      by_cases hp : pat = ([] : List Char)
      · simp only [firstIdx, if_pos hp, Option.some.injEq] at h
        intro j hj
        omega
      · simp [firstIdx, hp] at h
  | cons c rest ih =>
      by_cases hpre : pat.isPrefixOf (c :: rest)
      · simp only [firstIdx, if_pos hpre, Option.some.injEq] at h
        intro j hj
        omega
      · simp only [firstIdx, if_neg hpre, Option.map_eq_some'] at h
        obtain ⟨i', h1, h2⟩ := h
        subst h2
        intro j hj
        cases j with
        | zero =>
            intro hc
            exact hpre (prefixOf_eq_true_iff.mpr (by simpa using hc))
        | succ j' =>
            rw [List.drop_succ_cons]
            exact ih h1 j' (by omega)

theorem firstIdx_none_nocc {pat s : List Char} (h : firstIdx pat s = none) :
    ∀ j, ¬ pat <+: s.drop j := by
  induction s with
  | nil =>
      by_cases hp : pat = ([] : List Char)
      · simp [firstIdx, hp] at h
      · intro j hc
        exact hp (List.prefix_nil.mp (by simpa using hc))
  | cons c rest ih =>
      by_cases hpre : pat.isPrefixOf (c :: rest)
      · simp [firstIdx, hpre] at h
      · simp only [firstIdx, if_neg hpre, Option.map_eq_none'] at h
        intro j
        cases j with
        | zero =>
            intro hc
            exact hpre (prefixOf_eq_true_iff.mpr (by simpa using hc))
        | succ j' =>
            rw [List.drop_succ_cons]
            exact ih h j'

theorem firstIdx_eq_of_occ_min {pat s : List Char} {i : Nat}
    (hocc : pat <+: s.drop i) (hmin : ∀ j, j < i → ¬ pat <+: s.drop j) :
    firstIdx pat s = some i := by
  induction s generalizing i with
  | nil =>
      have hp : pat = ([] : List Char) := List.prefix_nil.mp (by simpa using hocc)
      have hi : i = 0 := by
        by_contra h0
        exact hmin 0 (by omega) (by simp [hp])
      subst hi
      simp [firstIdx, hp]
  | cons c rest ih =>
      cases i with
      | zero =>
          have hpre : pat.isPrefixOf (c :: rest) :=
            prefixOf_eq_true_iff.mpr (by simpa using hocc)
          simp [firstIdx, hpre]
      | succ i' =>
          have hpre : ¬ pat.isPrefixOf (c :: rest) := by
            intro hc
            exact hmin 0 (by omega) (by simpa using prefixOf_eq_true_iff.mp hc)
          rw [List.drop_succ_cons] at hocc
          have hrec := ih hocc (fun j hj => by
            have hmj := hmin (j + 1) (by omega)
            rwa [List.drop_succ_cons] at hmj)
          simp [firstIdx, hpre, hrec]

theorem take_eq_of_pre {pat x : List Char} (h : pat <+: x) : x.take pat.length = pat :=
  (List.prefix_iff_eq_take.mp h).symm

theorem pre_of_pre_take {pat x : List Char} {n : Nat} (h : pat <+: x.take n) :
    pat <+: x := h.trans (List.take_prefix n x)

theorem pre_append_of_le {pat A B : List Char} (h : pat <+: A ++ B)
    (hL : pat.length ≤ A.length) : pat <+: A := by
  have h1 : pat = (A ++ B).take pat.length := List.prefix_iff_eq_take.mp h
  rw [List.take_append_eq_append_take, Nat.sub_eq_zero_of_le hL] at h1
  simp only [List.take_zero, List.append_nil] at h1
  have h2 := List.take_prefix pat.length A
  rwa [← h1] at h2

theorem pre_append_drop {pat A B : List Char} (h : pat <+: A ++ B)
    (hL : A.length ≤ pat.length) : A <+: pat ∧ pat.drop A.length <+: B := by
  obtain ⟨t, ht⟩ := h
  have hA : pat.take A.length = A := by
    have h1 := congrArg (List.take A.length) ht
    rwa [List.take_append_eq_append_take, Nat.sub_eq_zero_of_le hL,
      List.take_zero, List.append_nil, List.take_left] at h1
  constructor
  · have h2 := List.take_prefix A.length pat
    rwa [hA] at h2
  · have h1 := congrArg (List.drop A.length) ht
    rw [List.drop_append_eq_append_drop, Nat.sub_eq_zero_of_le hL,
      List.drop_zero, List.drop_left] at h1
    exact ⟨t, h1⟩

theorem occ_append_cases {pat X Y : List Char} {j : Nat}
    (h : pat <+: (X ++ Y).drop j) :
    (j + pat.length ≤ X.length ∧ pat <+: X.drop j) ∨
    (X.length ≤ j ∧ pat <+: Y.drop (j - X.length)) ∨
    (j < X.length ∧ X.length < j + pat.length ∧
      X.drop j <+: pat ∧ pat.drop (X.length - j) <+: Y) := by
  rcases Nat.lt_or_ge j X.length with hj | hj
  · have hdrop : (X ++ Y).drop j = X.drop j ++ Y := by
      rw [List.drop_append_eq_append_drop, Nat.sub_eq_zero_of_le (le_of_lt hj),
        List.drop_zero]
    rw [hdrop] at h
    have hlend : (X.drop j).length = X.length - j := List.length_drop j X
    rcases le_or_lt pat.length (X.drop j).length with hlen | hlen
    · left
      exact ⟨by omega, pre_append_of_le h hlen⟩
    · right; right
      obtain ⟨hA, hB⟩ := pre_append_drop h (le_of_lt hlen)
      refine ⟨hj, by omega, hA, ?_⟩
      rwa [hlend] at hB
  · right; left
    refine ⟨hj, ?_⟩
    rw [List.drop_append_eq_append_drop, List.drop_eq_nil_of_le hj,
      List.nil_append] at h
    exact h

theorem head?_eq_of_pre {p l : List Char} (h : p <+: l) (hp : p ≠ []) :
    l.head? = p.head? := by
  obtain ⟨t, ht⟩ := h
  subst ht
  cases p with
  | nil => exact absurd rfl hp
  | cons a q => simp

/-! ## Claims C1, C9, C3, C4: the Ec2ImageBuilderStart constructor -/

/-- C1: the constructor validates synchronously at instantiation time: it
throws `Timeout cannot exceed 12 hours` when the waitForCompletion timeout
exceeds 43200 seconds, throws `Hash must be 7 characters or less` when the hash
is longer than 7 characters, throws when the pipeline ARN fails the (spec-
modelled) AWS ARN format check, and builds no custom resource when any
validation fails. -/
theorem ec2_constructor_validates (props : Ec2ImageBuilderStartProps) :
    (43200 < timeoutSecondsOf props →
      mkEc2ImageBuilderStart props = .error ("Timeout cannot exceed 12 hours".toList)) ∧
    (timeoutSecondsOf props ≤ 43200 → 7 < hashLenOf props →
      mkEc2ImageBuilderStart props = .error ("Hash must be 7 characters or less".toList)) ∧
    (timeoutSecondsOf props ≤ 43200 → hashLenOf props ≤ 7 →
      validateAwsArn props.pipelineArn = false →
      isOkE (mkEc2ImageBuilderStart props) = false) ∧
    ((43200 < timeoutSecondsOf props ∨ 7 < hashLenOf props ∨
        validateAwsArn props.pipelineArn = false) →
      isOkE (mkEc2ImageBuilderStart props) = false) := by
  refine ⟨fun h1 => ?_, fun h1 h2 => ?_, fun h1 h2 h3 => ?_, fun h => ?_⟩
  · unfold mkEc2ImageBuilderStart
    rw [if_pos h1]
  · unfold mkEc2ImageBuilderStart
    rw [if_neg (by omega), if_pos h2]
  · unfold mkEc2ImageBuilderStart
    rw [if_neg (by omega), if_neg (by omega), if_pos h3]
    rfl
  · unfold mkEc2ImageBuilderStart
    split_ifs with a b c <;> simp_all [isOkE]

/-- Witness for C1 at a timeout of 43201 seconds. -/
theorem ec2_constructor_validates_witness :
    43200 < timeoutSecondsOf propsTimeoutEx ∧
    mkEc2ImageBuilderStart propsTimeoutEx =
      .error ("Timeout cannot exceed 12 hours".toList) :=
  ⟨by decide, (ec2_constructor_validates propsTimeoutEx).1 (by decide)⟩

/-- C9: the bound checks are strict: with a valid ARN, construction fails
exactly when the timeout strictly exceeds 43200 seconds or the hash length
strictly exceeds 7; the boundary values are accepted. -/
theorem ec2_constructor_bounds_strict (props : Ec2ImageBuilderStartProps)
    (harn : validateAwsArn props.pipelineArn = true) :
    isOkE (mkEc2ImageBuilderStart props) = false ↔
      (43200 < timeoutSecondsOf props ∨ 7 < hashLenOf props) := by
  unfold mkEc2ImageBuilderStart
  split_ifs with a b c <;> simp_all [isOkE]

/-- Witness for C9: a timeout of exactly 43200 seconds together with a
7-character hash is accepted. -/
theorem ec2_constructor_bounds_strict_witness :
    validateAwsArn propsBoundaryEx.pipelineArn = true ∧
    (isOkE (mkEc2ImageBuilderStart propsBoundaryEx) = false ↔
      (43200 < timeoutSecondsOf propsBoundaryEx ∨ 7 < hashLenOf propsBoundaryEx)) :=
  ⟨by decide, ec2_constructor_bounds_strict propsBoundaryEx (by decide)⟩

/-- C3: on success, both the onCreate and the onUpdate SDK call are the single
Image Builder `startImagePipelineExecution` action with
`parameters = (imagePipelineArn := props.pipelineArn)`, and the physical
resource id equals the given hash, or `Run1x` when none was given. -/
theorem ec2_sdk_call (props : Ec2ImageBuilderStartProps) (r : Ec2ImageBuilderStart)
    (h : mkEc2ImageBuilderStart props = .ok r) :
    r.cr.onCreate = startCall (props.hash.getD ("Run1x".toList)) props.pipelineArn ∧
    r.cr.onUpdate = r.cr.onCreate ∧
    r.cr.onCreate.action = ("startImagePipelineExecution".toList) ∧
    r.cr.onCreate.service = ("Imagebuilder".toList) ∧
    r.cr.onCreate.imagePipelineArn = props.pipelineArn ∧
    r.cr.onCreate.physicalResourceId = props.hash.getD ("Run1x".toList) ∧
    r.cr.resourceType = ("Custom::Ec2ImageBuilderStart".toList) := by
  unfold mkEc2ImageBuilderStart at h
  split_ifs at h
  simp only [Except.ok.injEq] at h
  subst h
  simp [startCall]

/-- Witness for C3 with no hash given. -/
theorem ec2_sdk_call_witness :
    mkEc2ImageBuilderStart propsPlainEx = .ok ec2ResultPlainEx ∧
    ec2ResultPlainEx.cr.onCreate.physicalResourceId = ("Run1x".toList) ∧
    ec2ResultPlainEx.cr.onCreate.action = ("startImagePipelineExecution".toList) :=
  ⟨rfl,
   by
    have h := ec2_sdk_call propsPlainEx ec2ResultPlainEx rfl
    exact ⟨h.2.2.2.2.2.1, h.2.2.1⟩⟩

/-- C4: the wait handle, wait condition and signal Lambda exist exactly when
`waitForCompletion` is provided; the wait condition timeout is the stringified
given timeout, defaulting to 43200 seconds; the signal Lambda subscribes to the
given SNS topic. -/
theorem ec2_wait_resources (props : Ec2ImageBuilderStartProps) (r : Ec2ImageBuilderStart)
    (h : mkEc2ImageBuilderStart props = .ok r) :
    (r.wait.isSome ↔ props.waitForCompletion.isSome) ∧
    (∀ w, props.waitForCompletion = some w →
      r.wait = some { waitHandleId := ("WaitHandle".toList) ++ r.hash
                    , subscribedTopic := w.topic
                    , waiterId := ("Waiter".toList) ++ r.hash
                    , waiterTimeout :=
                        Nat.toDigits 10 ((w.timeout.getD (Duration.hours 12)).toSeconds) }) ∧
    (∀ w, props.waitForCompletion = some w → w.timeout = none →
      ∃ wr, r.wait = some wr ∧ wr.waiterTimeout = ("43200".toList)) := by
  unfold mkEc2ImageBuilderStart at h
  split_ifs at h
  simp only [Except.ok.injEq] at h
  subst h
  refine ⟨?_, fun w hw => ?_, fun w hw ht => ?_⟩
  · simp only [waitForTopicSignal]
    cases props.waitForCompletion <;> simp
  · simp only [waitForTopicSignal, hw]
  · simp only [waitForTopicSignal, hw, ht]
    exact ⟨_, rfl, rfl⟩

/-- Witness for C4: `waitForCompletion` with no explicit timeout produces a
wait condition with timeout `43200`. -/
theorem ec2_wait_resources_witness :
    mkEc2ImageBuilderStart propsWaitDefaultEx = .ok ec2ResultWaitDefaultEx ∧
    ec2ResultWaitDefaultEx.wait =
      some { waitHandleId := ("WaitHandle".toList) ++ ec2ResultWaitDefaultEx.hash
           , subscribedTopic := ("Topic".toList)
           , waiterId := ("Waiter".toList) ++ ec2ResultWaitDefaultEx.hash
           , waiterTimeout := Nat.toDigits 10 ((Option.none.getD (Duration.hours 12)).toSeconds) } :=
  ⟨rfl,
   (ec2_wait_resources propsWaitDefaultEx ec2ResultWaitDefaultEx rfl).2.1
     { topic := ("Topic".toList), timeout := none } (by decide)⟩

/-! ## Claim C2: the per-stack provider cache -/

theorem findToken_after_gob (st : ProviderCache) (stackId : List Char) :
    findToken ((getOrBuildProvider st stackId).2).tokens stackId =
      some (getOrBuildProvider st stackId).1 := by
  unfold getOrBuildProvider
  cases hf : findToken st.tokens stackId with
  | some p => simp [hf]
  | none => simp [hf, findToken]

theorem findToken_stable_gob {st : ProviderCache} {stackId : List Char} {p : Provider}
    (h : findToken st.tokens stackId = some p) (other : List Char) :
    findToken ((getOrBuildProvider st other).2).tokens stackId = some p := by
  unfold getOrBuildProvider
  cases hf : findToken st.tokens other with
  | some q => simpa
  | none =>
      have hne : other ≠ stackId := by
        intro he
        subst he
        rw [h] at hf
        cases hf
      simp [findToken, hne, h]

theorem findToken_stable_run {st : ProviderCache} {stackId : List Char} {p : Provider}
    (h : findToken st.tokens stackId = some p) (ids : List (List Char)) :
    findToken ((runConstructions st ids).2).tokens stackId = some p := by
  induction ids generalizing st with
  | nil => simpa [runConstructions]
  | cons x rest ih =>
      simp only [runConstructions]
      exact ih (findToken_stable_gob h x)

theorem runConstructions_get_eq_findToken (ids : List (List Char)) :
    ∀ (st : ProviderCache) (k : Nat) (stackId : List Char), ids[k]? = some stackId →
      (runConstructions st ids).1[k]? =
        findToken ((runConstructions st ids).2).tokens stackId := by
  induction ids with
  | nil =>
      intro st k stackId h
      simp at h
  | cons x rest ih =>
      intro st k stackId hk
      cases k with
      | zero =>
          simp only [List.getElem?_cons_zero, Option.some.injEq] at hk
          subst hk
          simp only [runConstructions, List.getElem?_cons_zero]
          exact (findToken_stable_run (findToken_after_gob st x) rest).symm
      | succ k' =>
          simp only [runConstructions, List.getElem?_cons_succ]
          exact ih _ k' stackId (by simpa using hk)

theorem findToken_eq_none_iff (toks : List (List Char × Provider)) (stackId : List Char) :
    findToken toks stackId = none ↔ stackId ∉ toks.map Prod.fst := by
  induction toks with
  | nil => simp [findToken]
  | cons kv rest ih =>
      cases kv with
      | mk k p =>
          by_cases hk : k = stackId
          · subst hk
            simp [findToken]
          · have hk2 : stackId ≠ k := fun h => hk h.symm
            simp [findToken, hk, hk2, ih]

theorem runConstructions_nextId (ids : List (List Char)) :
    ∀ st : ProviderCache,
      (runConstructions st ids).2.nextId =
        st.nextId + (ids.toFinset \ (st.tokens.map Prod.fst).toFinset).card := by
  induction ids with
  | nil =>
      intro st
      simp [runConstructions]
  | cons x rest ih =>
      intro st
      simp only [runConstructions]
      cases hf : findToken st.tokens x with
      | some p =>
          have hx : x ∈ (st.tokens.map Prod.fst).toFinset := by
            rw [List.mem_toFinset]
            by_contra hc
            have hn := (findToken_eq_none_iff st.tokens x).mpr hc
            rw [hf] at hn
            cases hn
          have hgob : getOrBuildProvider st x = (p, st) := by
            simp [getOrBuildProvider, hf]
          rw [hgob, ih st]
          have hsets : (x :: rest).toFinset \ (st.tokens.map Prod.fst).toFinset =
              rest.toFinset \ (st.tokens.map Prod.fst).toFinset := by
            rw [List.toFinset_cons]
            exact Finset.insert_sdiff_of_mem _ hx
          rw [hsets]
      | none =>
          have hx : x ∉ (st.tokens.map Prod.fst).toFinset := by
            rw [List.mem_toFinset]
            exact (findToken_eq_none_iff st.tokens x).mp hf
          have hgob : getOrBuildProvider st x =
              (⟨st.nextId⟩, { tokens := (x, ⟨st.nextId⟩) :: st.tokens
                            , nextId := st.nextId + 1 }) := by
            simp [getOrBuildProvider, hf]
          rw [hgob, ih _]
          simp only [List.map_cons, List.toFinset_cons]
          rw [Finset.sdiff_insert]
          have hxsd : (insert x rest.toFinset) \ (st.tokens.map Prod.fst).toFinset =
              insert x (rest.toFinset \ (st.tokens.map Prod.fst).toFinset) := by
            ext y
            by_cases hy : y = x <;>
              simp [Finset.mem_sdiff, Finset.mem_insert, hy, hx]
          rw [hxsd]
          have hins : insert x (rest.toFinset \ (st.tokens.map Prod.fst).toFinset) =
              insert x ((rest.toFinset \ (st.tokens.map Prod.fst).toFinset).erase x) := by
            ext y
            by_cases hy : y = x <;>
              simp [Finset.mem_insert, Finset.mem_erase, hy]
          rw [hins, Finset.card_insert_of_not_mem (Finset.not_mem_erase _ _)]
          omega

/-- C2: at most one Provider exists per stack node id: a cache hit returns the
identical cached Provider and leaves the cache unchanged, a cache miss builds
and stores a fresh Provider, constructions whose stacks share a node id receive
the same Provider, and the number of Providers ever built equals the number of
distinct stack node ids. -/
theorem dynamodb_provider_per_stack :
    (∀ (st : ProviderCache) (stackId : List Char) (p : Provider),
      findToken st.tokens stackId = some p →
      getOrBuildProvider st stackId = (p, st)) ∧
    (∀ (st : ProviderCache) (stackId : List Char),
      findToken st.tokens stackId = none →
      getOrBuildProvider st stackId =
        (⟨st.nextId⟩, { tokens := (stackId, ⟨st.nextId⟩) :: st.tokens
                      , nextId := st.nextId + 1 })) ∧
    (∀ (ids : List (List Char)) (i j : Nat) (stackId : List Char),
      ids[i]? = some stackId → ids[j]? = some stackId →
      (runConstructions emptyCache ids).1[i]? = (runConstructions emptyCache ids).1[j]?) ∧
    (∀ ids : List (List Char),
      (runConstructions emptyCache ids).2.nextId = ids.toFinset.card) := by
  refine ⟨?_, ?_, ?_, ?_⟩
  · intro st stackId p h
    simp [getOrBuildProvider, h]
  · intro st stackId h
    simp [getOrBuildProvider, h]
  · intro ids i j stackId hi hj
    rw [runConstructions_get_eq_findToken ids emptyCache i stackId hi,
        runConstructions_get_eq_findToken ids emptyCache j stackId hj]
  · intro ids
    rw [runConstructions_nextId ids emptyCache]
    simp [emptyCache]

/-- Witness for C2: in the sequence StackA, StackB, StackA the first and third
construction receive the same provider. -/
theorem dynamodb_provider_per_stack_witness :
    stackSeqEx[0]? = some ("StackA".toList) ∧
    stackSeqEx[2]? = some ("StackA".toList) ∧
    (runConstructions emptyCache stackSeqEx).1[0]? =
      (runConstructions emptyCache stackSeqEx).1[2]? :=
  ⟨rfl, rfl,
   dynamodb_provider_per_stack.2.2.1 stackSeqEx 0 2 ("StackA".toList) rfl rfl⟩

/-! ## Claim C5: the marker injection only changes the region between markers -/

/-- C5: when both markers are found, the written file keeps every character up
to and including the start marker as a prefix and every character from the end
marker on as a suffix; when either marker is missing nothing is written (the
injection yields nothing and the generator body errors for every SDK response). -/
theorem inject_frame (content enumString : List Char) :
    (∀ s e, firstIdx startMarker content = some s →
      firstIdx endMarker content = some e →
      ∃ w, injectEnum content enumString = some w ∧
        content.take (s + startMarker.length) <+: w ∧
        content.drop e <:+ w) ∧
    ((firstIdx startMarker content = none ∨ firstIdx endMarker content = none) →
      (∀ es, injectEnum content es = none) ∧
      ∀ sendResult, isOkE (generateAndInjectBody sendResult (some content)) = false) := by
  constructor
  · intro s e hs he
    unfold injectEnum
    rw [hs, he]
    refine ⟨_, rfl, ?_, ?_⟩
    · exact (List.prefix_append _ _).trans (List.prefix_append _ _)
    · exact List.suffix_append _ _
  · intro h
    have hnone : ∀ es, injectEnum content es = none := by
      intro es
      unfold injectEnum
      rcases h with h | h
      · rw [h]
      · rw [h]
        cases firstIdx startMarker content <;> rfl
    refine ⟨hnone, fun sendResult => ?_⟩
    unfold generateAndInjectBody
    cases sendResult with
    | none => rfl
    | some response =>
        by_cases hlen : (response.getD []).length = 0
        · simp [hlen, isOkE]
        · simp only [if_neg hlen]
          rw [hnone (mkEnumString (response.getD []))]
          rfl

/-- Witness for C5 on a small firewall source file. -/
theorem inject_frame_witness :
    firstIdx startMarker wafFileEx = some 23 ∧
    firstIdx endMarker wafFileEx = some 66 ∧
    ∃ w, injectEnum wafFileEx enumEx = some w ∧
      wafFileEx.take (23 + startMarker.length) <+: w ∧
      wafFileEx.drop 66 <:+ w :=
  ⟨by decide, by decide,
   (inject_frame wafFileEx enumEx).1 23 66 (by decide) (by decide)⟩

/-! ## Claim C7: top-level error handling of the generator scripts -/

/-- C7 counterexample: the README generator script has no top-level catch, so a
failing read of `API.md` propagates out of the script invocation, refuting
"every generator script catches any error at the top level". -/
theorem generator_catch_cex :
    isOkE (runReadmeScript none (some readmeEx)) = false := rfl

/-- C7 amended: the WAF enum generator catches every error at its top level
(its invocation never propagates one), while the README generator script
leaves read failures to propagate. -/
theorem generator_catch_amended :
    (∀ (sendResult : Option (Option (List ManagedRuleGroupSummary)))
       (fileContent : Option (List Char)),
      isOkE (generateAndInjectAwsManagedRuleEnum sendResult fileContent) = true) ∧
    isOkE (runReadmeScript none (some readmeEx)) = false ∧
    isOkE (runReadmeScript (some apiMdEx) none) = false := by
  refine ⟨fun sendResult fileContent => ?_, rfl, rfl⟩
  unfold generateAndInjectAwsManagedRuleEnum
  cases h : generateAndInjectBody sendResult fileContent <;> rfl

/-! ## Claim C6: idempotence of the marker injection -/

theorem endMarker_not_in_wrap {enumString : List Char}
    (henum : ∀ j, ¬ endMarker <+: enumString.drop j) :
    ∀ j, ¬ endMarker <+: (wrapEnum enumString).drop j := by
  intro j hocc
  have hwrap : wrapEnum enumString =
      '\n' :: (enumString ++ '\n' :: ("    ".toList)) := rfl
  cases j with
  | zero =>
      rw [List.drop_zero, hwrap] at hocc
      have hh := head?_eq_of_pre hocc (by decide)
      exact (by decide : ¬ (some '\n' = endMarker.head?)) hh
  | succ j0 =>
      rw [hwrap, List.drop_succ_cons] at hocc
      rcases occ_append_cases hocc with ⟨hle, hocc2⟩ | ⟨hge, hocc2⟩ | ⟨h1, h2, hp1, hp2⟩
      · exact henum j0 hocc2
      · have hl := hocc2.length_le
        rw [List.length_drop] at hl
        have h34 : endMarker.length = 34 := rfl
        have h5 : ('\n' :: ("    ".toList)).length = 5 := rfl
        omega
      · have hk : endMarker.drop (enumString.length - j0) ≠ [] := by
          apply List.ne_nil_of_length_pos
          rw [List.length_drop]
          have h34 : endMarker.length = 34 := rfl
          omega
        have hh := head?_eq_of_pre hp2 hk
        rw [List.head?_drop] at hh
        have hmem : '\n' ∈ endMarker :=
          List.getElem?_mem (hh.symm.trans rfl)
        exact (by decide : ¬ ('\n' ∈ endMarker)) hmem

theorem wrap_drop_not_pre_endMarker (enumString : List Char) :
    ∀ j, j < (wrapEnum enumString).length →
      ¬ (wrapEnum enumString).drop j <+: endMarker := by
  intro j hj hpre
  have hwrap : wrapEnum enumString =
      ('\n' :: enumString) ++ '\n' :: ("    ".toList) := by
    simp [wrapEnum]
  have hwlen : (wrapEnum enumString).length = enumString.length + 6 := by
    simp [wrapEnum]
  have hne : (wrapEnum enumString).drop j ≠ [] := by
    apply List.ne_nil_of_length_pos
    rw [List.length_drop]
    omega
  have hh := head?_eq_of_pre hpre hne
  rw [List.head?_drop] at hh
  rcases Nat.lt_or_ge j (enumString.length + 2) with hj2 | hj2
  · -- the dropped tail still contains the inner newline; but the
    -- end marker, a prefix superset of it, has no newline
    have hmem : '\n' ∈ (wrapEnum enumString).drop j := by
      rw [hwrap, List.drop_append_eq_append_drop]
      have : ('\n' :: ("    ".toList)).drop (j - ('\n' :: enumString).length) =
          ('\n' :: ("    ".toList)).drop 0 := by
        congr 1
        simp only [List.length_cons]
        omega
      rw [this]
      simp
    exact (by decide : ¬ ('\n' ∈ endMarker)) (hpre.subset hmem)
  · -- the dropped tail lies inside the trailing spaces: its head is a
    -- space, while the end marker starts with a slash
    have hget : (wrapEnum enumString)[j]? = some ' ' := by
      rw [hwrap, List.getElem?_append_right (by simp; omega)]
      simp only [List.length_cons]
      have hk : j - (enumString.length + 1) ≥ 1 := by omega
      have hk2 : j - (enumString.length + 1) < 5 := by omega
      rcases (show j - (enumString.length + 1) = 1 ∨ j - (enumString.length + 1) = 2 ∨
          j - (enumString.length + 1) = 3 ∨ j - (enumString.length + 1) = 4 from by omega)
        with h | h | h | h <;> rw [h] <;> rfl
    rw [hget] at hh
    have : endMarker.head? = some '/' := rfl
    rw [this] at hh
    cases hh

set_option maxRecDepth 40000 in
/-- C6 counterexample: for content in which the end marker precedes the start
marker (both markers occur), applying the injection twice does not equal
applying it once — the output grows again. -/
theorem inject_idempotent_cex :
    ¬ ((injectEnum wafFileSwappedEx enumEx).bind (fun o => injectEnum o enumEx) =
       injectEnum wafFileSwappedEx enumEx) := by decide

/-- C6 (amended): for any file content in which both markers occur and the
first end marker starts at or after the end of the first start marker, and for
a generated enum string that does not contain the end marker, applying the
marker replacement twice produces the same content as applying it once. -/
theorem inject_idempotent (content enumString : List Char) (s e : Nat)
    (hs : firstIdx startMarker content = some s)
    (he : firstIdx endMarker content = some e)
    (horder : s + startMarker.length ≤ e)
    (henum : firstIdx endMarker enumString = none) :
    (injectEnum content enumString).bind (fun o => injectEnum o enumString) =
      injectEnum content enumString := by
  have hm : startMarker.length = 30 := rfl
  have hme : endMarker.length = 34 := rfl
  have occS := firstIdx_some_occ hs
  have minS := firstIdx_some_min hs
  have occE := firstIdx_some_occ he
  have minE := firstIdx_some_min he
  have henum2 := firstIdx_none_nocc henum
  set A := content.take (s + startMarker.length) with hA
  set W := wrapEnum enumString with hW
  set S := content.drop e with hS
  have hsm : s + startMarker.length ≤ content.length := by
    have h1 := occS.length_le
    rw [List.length_drop] at h1
    omega
  have he2 : e + endMarker.length ≤ content.length := by
    have h1 := occE.length_le
    rw [List.length_drop] at h1
    omega
  have lenA : A.length = s + startMarker.length := by
    rw [hA, List.length_take]
    omega
  have hAdrop : A.drop s = startMarker := by
    rw [hA, List.drop_take]
    have hss : s + startMarker.length - s = startMarker.length := by omega
    rw [hss]
    exact take_eq_of_pre occS
  have hAsub : ∀ (j : Nat) (pat : List Char), pat <+: A.drop j → pat <+: content.drop j := by
    intro j pat hp
    rw [hA, List.drop_take] at hp
    exact pre_of_pre_take hp
  have hinj1 : injectEnum content enumString = some (A ++ (W ++ S)) := by
    unfold injectEnum
    simp only [hs, he]
    rw [List.append_assoc]
  have houts : firstIdx startMarker (A ++ (W ++ S)) = some s := by
    apply firstIdx_eq_of_occ_min
    · have hdrop : (A ++ (W ++ S)).drop s = startMarker ++ (W ++ S) := by
        rw [List.drop_append_eq_append_drop]
        have h0 : s - A.length = 0 := by omega
        rw [h0, List.drop_zero, hAdrop]
      rw [hdrop]
      exact List.prefix_append _ _
    · intro j hj hcon
      rcases occ_append_cases hcon with ⟨hle, hocc2⟩ | ⟨hge, _⟩ | ⟨h1, h2, _, _⟩
      · exact minS j hj (hAsub j _ hocc2)
      · omega
      · omega
  have houte : firstIdx endMarker (A ++ (W ++ S)) = some (A.length + W.length) := by
    apply firstIdx_eq_of_occ_min
    · have hdrop : (A ++ (W ++ S)).drop (A.length + W.length) = S := by
        rw [← List.append_assoc, ← List.length_append]
        exact List.drop_left _ _
      rw [hdrop]
      exact occE
    · intro j hj hcon
      rcases occ_append_cases hcon with ⟨hle, hocc2⟩ | ⟨hge, hocc2⟩ | ⟨h1, h2, hp1, hp2⟩
      · exact minE j (by omega) (hAsub j _ hocc2)
      · rcases occ_append_cases hocc2 with ⟨hle2, hocc3⟩ | ⟨hge2, _⟩ | ⟨h1b, h2b, hp1b, hp2b⟩
        · exact endMarker_not_in_wrap henum2 _ hocc3
        · omega
        · rw [hW] at h1b hp1b
          exact wrap_drop_not_pre_endMarker enumString _ h1b hp1b
      · have hk : endMarker.drop (A.length - j) ≠ [] := by
          apply List.ne_nil_of_length_pos
          rw [List.length_drop]
          omega
        have hh := head?_eq_of_pre hp2 hk
        rw [List.head?_drop] at hh
        have hws : (W ++ S).head? = some '\n' := by
          rw [hW]
          rfl
        rw [hws] at hh
        exact (by decide : ¬ ('\n' ∈ endMarker)) (List.getElem?_mem hh.symm)
  have hinj2 : injectEnum (A ++ (W ++ S)) enumString = some (A ++ (W ++ S)) := by
    unfold injectEnum
    simp only [houts, houte]
    have htake : (A ++ (W ++ S)).take (s + startMarker.length) = A := by
      rw [← lenA]
      exact List.take_left _ _
    have hdrop : (A ++ (W ++ S)).drop (A.length + W.length) = S := by
      rw [← List.append_assoc, ← List.length_append]
      exact List.drop_left _ _
    rw [htake, hdrop, List.append_assoc]
  rw [hinj1]
  show injectEnum (A ++ (W ++ S)) enumString = some (A ++ (W ++ S))
  exact hinj2

/-- Witness for C6 (amended) on well-ordered content. -/
theorem inject_idempotent_witness :
    firstIdx startMarker (startMarker ++ endMarker) = some 0 ∧
    firstIdx endMarker (startMarker ++ endMarker) = some 30 ∧
    0 + startMarker.length ≤ 30 ∧
    firstIdx endMarker enumEx = none ∧
    (injectEnum (startMarker ++ endMarker) enumEx).bind
        (fun o => injectEnum o enumEx) =
      injectEnum (startMarker ++ endMarker) enumEx :=
  ⟨by decide, by decide, by decide, by decide,
   inject_idempotent (startMarker ++ endMarker) enumEx 0 30
     (by decide) (by decide) (by decide) (by decide)⟩

/-! ## Claim C8: the README Library section replacement -/

theorem findEnd_at_end {readme : List Char} {t : Nat} (h : ¬ t < readme.length) :
    findEnd readme t = readme.length := by
  unfold findEnd
  rw [if_neg h]

theorem findEnd_hit {readme : List Char} {t : Nat} (h : t < readme.length)
    (hp : ("\n## ".toList).isPrefixOf (readme.drop t) = true) :
    findEnd readme t = t := by
  unfold findEnd
  rw [if_pos h, if_pos hp]

theorem findEnd_step {readme : List Char} {t : Nat} (h : t < readme.length)
    (hp : ¬ ("\n## ".toList).isPrefixOf (readme.drop t) = true) :
    findEnd readme t = findEnd readme (t + 1) := by
  conv_lhs => unfold findEnd
  rw [if_pos h, if_neg hp]

theorem findEnd_spec (readme : List Char) :
    ∀ (k t : Nat), readme.length - t ≤ k → t ≤ readme.length →
      (t ≤ findEnd readme t ∧ findEnd readme t ≤ readme.length) ∧
      (findEnd readme t = readme.length ∨
        ("\n## ".toList).isPrefixOf (readme.drop (findEnd readme t)) = true) ∧
      (∀ u, t ≤ u → u < findEnd readme t →
        ("\n## ".toList).isPrefixOf (readme.drop u) = false) := by
  intro k
  induction k with
  | zero =>
      intro t hk ht
      have hteq : t = readme.length := by omega
      have hfe : findEnd readme t = readme.length := findEnd_at_end (by omega)
      refine ⟨⟨by omega, by omega⟩, Or.inl hfe, fun u hu1 hu2 => ?_⟩
      omega
  | succ k ih =>
      intro t hk ht
      by_cases hlt : t < readme.length
      · by_cases hpre : ("\n## ".toList).isPrefixOf (readme.drop t) = true
        · have hfe := findEnd_hit hlt hpre
          refine ⟨⟨by omega, by omega⟩, Or.inr (by rw [hfe]; exact hpre),
            fun u hu1 hu2 => ?_⟩
          omega
        · have hfe := findEnd_step hlt hpre
          obtain ⟨⟨hge, hle⟩, hend, hmin⟩ := ih (t + 1) (by omega) (by omega)
          refine ⟨⟨by omega, by omega⟩, by rw [hfe]; exact hend,
            fun u hu1 hu2 => ?_⟩
          rcases Nat.lt_or_ge t u with hu | hu
          · exact hmin u (by omega) (by omega)
          · have hut : u = t := by omega
            rw [hut]
            exact Bool.not_eq_true _ ▸ (by simpa using hpre)
      · have hfe := findEnd_at_end hlt
        refine ⟨⟨by omega, by omega⟩, Or.inl hfe, fun u hu1 hu2 => ?_⟩
        omega

/-- C8: with the Library header present at its first occurrence `i`, the script
writes the README whose prefix before `i` and suffix from the match end are the
untouched original text, where the match end is the first position after the
header at which a `\n## ` line starts (or the end of the file); the fresh
section is the generated markdown, whose `Total:` line carries the sum of the
three list lengths parsed from `API.md` and whose subsections each carry their
own `Count:` line. -/
theorem readme_library_frame (apiContent readmeContent : List Char) (i : Nat)
    (hi : firstIdx libHeader readmeContent = some i) :
    (runReadmeScript (some apiContent) (some readmeContent) =
      .ok (readmeContent.take i ++
        newLibrarySection (generateMarkdown (parseApiDoc apiContent).constructs
          (parseApiDoc apiContent).aspects (parseApiDoc apiContent).patterns) ++
        readmeContent.drop (findEnd readmeContent (i + libHeader.length)))) ∧
    (findEnd readmeContent (i + libHeader.length) = readmeContent.length ∨
      ("\n## ".toList).isPrefixOf
        (readmeContent.drop (findEnd readmeContent (i + libHeader.length))) = true) ∧
    (∀ u, i + libHeader.length ≤ u →
      u < findEnd readmeContent (i + libHeader.length) →
      ("\n## ".toList).isPrefixOf (readmeContent.drop u) = false) ∧
    (∀ c a p, generateMarkdown c a p =
      totalLine (c.length + a.length + p.length) ++
      constructsBlurb ++ countLine c.length ++ itemLines c ++
      aspectsBlurb ++ countLine a.length ++ itemLines a ++
      patternsBlurb ++ countLine p.length ++ itemLines p) := by
  have hocc := firstIdx_some_occ hi
  have hbound : i + libHeader.length ≤ readmeContent.length := by
    have h1 := hocc.length_le
    rw [List.length_drop] at h1
    have h2 : libHeader.length = 12 := rfl
    omega
  obtain ⟨_, hend, hmin⟩ :=
    findEnd_spec readmeContent (readmeContent.length - (i + libHeader.length))
      (i + libHeader.length) (by omega) hbound
  refine ⟨?_, hend, hmin, fun c a p => rfl⟩
  unfold runReadmeScript replaceLibrary
  simp only [hi]

/-- Witness for C8 on a small README/API pair. -/
theorem readme_library_frame_witness :
    firstIdx libHeader readmeEx = some 18 ∧
    runReadmeScript (some apiMdEx) (some readmeEx) =
      .ok (readmeEx.take 18 ++
        newLibrarySection (generateMarkdown (parseApiDoc apiMdEx).constructs
          (parseApiDoc apiMdEx).aspects (parseApiDoc apiMdEx).patterns) ++
        readmeEx.drop (findEnd readmeEx (18 + libHeader.length))) :=
  ⟨by decide, (readme_library_frame apiMdEx readmeEx 18 (by decide)).1⟩

/-! ## Claim C10: no item is pushed twice; `.types.` headers yield no item -/

theorem tags_perm_c (C A P : List DocItem) (x : DocItem) :
    List.Perm (((C ++ [x]) ++ A ++ P).map DocItem.tag)
      (x.tag :: (C ++ A ++ P).map DocItem.tag) := by
  simp only [List.map_append, List.map_cons, List.map_nil]
  have e1 : ((C.map DocItem.tag ++ [x.tag]) ++ A.map DocItem.tag) ++ P.map DocItem.tag =
      (C.map DocItem.tag ++ x.tag :: A.map DocItem.tag) ++ P.map DocItem.tag := by
    simp
  rw [e1]
  exact List.perm_middle.append_right _

theorem tags_perm_a (C A P : List DocItem) (x : DocItem) :
    List.Perm (((C ++ (A ++ [x])) ++ P).map DocItem.tag)
      (x.tag :: (C ++ A ++ P).map DocItem.tag) := by
  simp only [List.map_append, List.map_cons, List.map_nil]
  have e1 : (C.map DocItem.tag ++ (A.map DocItem.tag ++ [x.tag])) ++ P.map DocItem.tag =
      (C.map DocItem.tag ++ A.map DocItem.tag) ++ x.tag :: P.map DocItem.tag := by
    simp
  rw [e1]
  exact List.perm_middle

theorem tags_perm_p (C A P : List DocItem) (x : DocItem) :
    List.Perm (((C ++ A) ++ (P ++ [x])).map DocItem.tag)
      (x.tag :: (C ++ A ++ P).map DocItem.tag) := by
  simp only [List.map_append, List.map_cons, List.map_nil]
  have e1 : (C.map DocItem.tag ++ A.map DocItem.tag) ++ (P.map DocItem.tag ++ [x.tag]) =
      ((C.map DocItem.tag ++ A.map DocItem.tag) ++ P.map DocItem.tag) ++ [x.tag] := by
    simp
  rw [e1]
  exact List.perm_append_singleton _ _

theorem pushPrevious_currentItem (st : ParseState) (id : List Char) :
    (pushPrevious st id).currentItem = st.currentItem := by
  cases hc : st.currentItem with
  | none => simp [pushPrevious, hc]
  | some cur =>
      simp only [pushPrevious, hc]
      split_ifs <;> first | rfl | exact hc

theorem pushPrevious_nextTag (st : ParseState) (id : List Char) :
    (pushPrevious st id).nextTag = st.nextTag := by
  cases hc : st.currentItem with
  | none => simp [pushPrevious, hc]
  | some cur =>
      simp only [pushPrevious, hc]
      split_ifs <;> rfl

theorem pushPrevious_nodup_bound (st : ParseState) (id : List Char)
    (hinv : ParseInv st) :
    (listTags (pushPrevious st id)).Nodup ∧
    (∀ t ∈ listTags (pushPrevious st id), t < st.nextTag) := by
  obtain ⟨hnd, hbd, hcur⟩ := hinv
  cases hc : st.currentItem with
  | none =>
      simp only [pushPrevious, hc]
      exact ⟨hnd, hbd⟩
  | some cur =>
      obtain ⟨hct, hcm⟩ := hcur cur hc
      simp only [pushPrevious, hc]
      split_ifs with h1 h2 h3
      · have hperm := tags_perm_p st.constructs st.aspects st.patterns cur
        constructor
        · exact hperm.nodup_iff.mpr (List.nodup_cons.mpr ⟨hcm, hnd⟩)
        · intro t ht
          rcases List.mem_cons.mp (hperm.mem_iff.mp ht) with h | h
          · rw [h]; exact hct
          · exact hbd t h
      · have hperm := tags_perm_a st.constructs st.aspects st.patterns cur
        constructor
        · exact hperm.nodup_iff.mpr (List.nodup_cons.mpr ⟨hcm, hnd⟩)
        · intro t ht
          rcases List.mem_cons.mp (hperm.mem_iff.mp ht) with h | h
          · rw [h]; exact hct
          · exact hbd t h
      · have hperm := tags_perm_c st.constructs st.aspects st.patterns cur
        constructor
        · exact hperm.nodup_iff.mpr (List.nodup_cons.mpr ⟨hcm, hnd⟩)
        · intro t ht
          rcases List.mem_cons.mp (hperm.mem_iff.mp ht) with h | h
          · rw [h]; exact hct
          · exact hbd t h
      · exact ⟨hnd, hbd⟩

theorem parseHeaderLine_inv (st : ParseState) (line : List Char)
    (rest : List (List Char)) (hinv : ParseInv st) :
    ParseInv (parseHeaderLine st line rest) := by
  cases hid : idCapture line with
  | none => simpa only [parseHeaderLine, hid] using hinv
  | some rawId =>
      obtain ⟨hp1, hp2⟩ := pushPrevious_nodup_bound st (rawId.map Char.toLower) hinv
      have hpt := pushPrevious_nextTag st (rawId.map Char.toLower)
      simp only [parseHeaderLine, hid]
      split_ifs with ht hpat hasp hcon
      · -- `.types.`: the previous item may have been pushed, nothing is created
        refine ⟨hp1, ?_, ?_⟩
        · intro t htag
          rw [show ({ pushPrevious st (rawId.map Char.toLower) with
              currentItem := none } : ParseState).nextTag = st.nextTag from hpt]
          exact hp2 t htag
        · intro c hcon2
          exact Option.noConfusion hcon2
      · -- pushed straight into `patterns`
        have hperm := tags_perm_p (pushPrevious st (rawId.map Char.toLower)).constructs
          (pushPrevious st (rawId.map Char.toLower)).aspects
          (pushPrevious st (rawId.map Char.toLower)).patterns
          ⟨(line.drop 4).takeWhile (fun ch => ch ≠ ' '),
            joinSpace (scanDescription rest [] false),
            (pushPrevious st (rawId.map Char.toLower)).nextTag⟩
        refine ⟨?_, ?_, ?_⟩
        · refine hperm.nodup_iff.mpr (List.nodup_cons.mpr ⟨?_, hp1⟩)
          intro hmem
          have := hp2 _ hmem
          rw [hpt] at this
          dsimp only at this
          omega
        · intro t htag
          rcases List.mem_cons.mp (hperm.mem_iff.mp htag) with h | h
          · rw [h, hpt]
            dsimp only
            omega
          · have := hp2 t h
            dsimp only
            rw [hpt]
            omega
        · intro c hcon2
          exact Option.noConfusion hcon2
      · -- pushed straight into `aspects`
        have hperm := tags_perm_a (pushPrevious st (rawId.map Char.toLower)).constructs
          (pushPrevious st (rawId.map Char.toLower)).aspects
          (pushPrevious st (rawId.map Char.toLower)).patterns
          ⟨(line.drop 4).takeWhile (fun ch => ch ≠ ' '),
            joinSpace (scanDescription rest [] false),
            (pushPrevious st (rawId.map Char.toLower)).nextTag⟩
        refine ⟨?_, ?_, ?_⟩
        · refine hperm.nodup_iff.mpr (List.nodup_cons.mpr ⟨?_, hp1⟩)
          intro hmem
          have := hp2 _ hmem
          rw [hpt] at this
          dsimp only at this
          omega
        · intro t htag
          rcases List.mem_cons.mp (hperm.mem_iff.mp htag) with h | h
          · rw [h, hpt]
            dsimp only
            omega
          · have := hp2 t h
            dsimp only
            rw [hpt]
            omega
        · intro c hcon2
          exact Option.noConfusion hcon2
      · -- pushed straight into `constructs`
        have hperm := tags_perm_c (pushPrevious st (rawId.map Char.toLower)).constructs
          (pushPrevious st (rawId.map Char.toLower)).aspects
          (pushPrevious st (rawId.map Char.toLower)).patterns
          ⟨(line.drop 4).takeWhile (fun ch => ch ≠ ' '),
            joinSpace (scanDescription rest [] false),
            (pushPrevious st (rawId.map Char.toLower)).nextTag⟩
        refine ⟨?_, ?_, ?_⟩
        · refine hperm.nodup_iff.mpr (List.nodup_cons.mpr ⟨?_, hp1⟩)
          intro hmem
          have := hp2 _ hmem
          rw [hpt] at this
          dsimp only at this
          omega
        · intro t htag
          rcases List.mem_cons.mp (hperm.mem_iff.mp htag) with h | h
          · rw [h, hpt]
            dsimp only
            omega
          · have := hp2 t h
            dsimp only
            rw [hpt]
            omega
        · intro c hcon2
          exact Option.noConfusion hcon2
      · -- kept as the live current item
        refine ⟨hp1, ?_, ?_⟩
        · intro t htag
          have := hp2 t htag
          dsimp only
          rw [hpt]
          omega
        · intro c hcon2
          have hc2 : c = ⟨(line.drop 4).takeWhile (fun ch => ch ≠ ' '),
              joinSpace (scanDescription rest [] false),
              (pushPrevious st (rawId.map Char.toLower)).nextTag⟩ :=
            (Option.some.inj hcon2).symm
          subst hc2
          constructor
          · dsimp only
            rw [hpt]
            omega
          · intro hmem
            have := hp2 _ hmem
            rw [hpt] at this
            dsimp only at this
            omega

theorem parseLine_inv (st : ParseState) (l : List Char) (rest : List (List Char))
    (hinv : ParseInv st) : ParseInv (parseLine st l rest) := by
  unfold parseLine
  dsimp only
  split_ifs <;>
    first
      | exact hinv
      | exact ⟨hinv.1, hinv.2.1, hinv.2.2⟩
      | exact parseHeaderLine_inv _ _ _ ⟨hinv.1, hinv.2.1, hinv.2.2⟩

theorem parseLinesGo_inv (lines : List (List Char)) :
    ∀ st, ParseInv st → ParseInv (parseLinesGo st lines) := by
  induction lines with
  | nil =>
      intro st h
      exact h
  | cons l rest ih =>
      intro st h
      exact ih _ (parseLine_inv st l rest h)

theorem parseApiDoc_tags_nodup (content : List Char) :
    (docTags (parseApiDoc content)).Nodup := by
  have hinv : ParseInv (parseLinesGo ⟨[], [], [], false, none, 0⟩ (splitOnNl content)) := by
    refine parseLinesGo_inv (splitOnNl content) _ ⟨?_, ?_, ?_⟩
    · simp [listTags]
    · intro t ht
      simp [listTags] at ht
    · intro c hc
      exact Option.noConfusion hc
  obtain ⟨hnd, hbd, hcur⟩ := hinv
  unfold parseApiDoc
  dsimp only
  cases hc : (parseLinesGo ⟨[], [], [], false, none, 0⟩ (splitOnNl content)).currentItem with
  | none => exact hnd
  | some cur =>
      obtain ⟨hct, hcm⟩ := hcur cur hc
      have hperm := tags_perm_c
        (parseLinesGo ⟨[], [], [], false, none, 0⟩ (splitOnNl content)).constructs
        (parseLinesGo ⟨[], [], [], false, none, 0⟩ (splitOnNl content)).aspects
        (parseLinesGo ⟨[], [], [], false, none, 0⟩ (splitOnNl content)).patterns cur
      exact hperm.nodup_iff.mpr (List.nodup_cons.mpr ⟨hcm, hnd⟩)

theorem parseHeaderLine_types (st : ParseState) (line : List Char)
    (rest : List (List Char)) (rawId : List Char)
    (hid : idCapture line = some rawId)
    (hty : includesStr (".types.".toList) (rawId.map Char.toLower) = true) :
    (parseHeaderLine st line rest).currentItem = none ∧
    (parseHeaderLine st line rest).nextTag = st.nextTag ∧
    (∀ it, it ∈ (parseHeaderLine st line rest).constructs ++
        (parseHeaderLine st line rest).aspects ++
        (parseHeaderLine st line rest).patterns →
      it ∈ st.constructs ++ st.aspects ++ st.patterns ∨ st.currentItem = some it) := by
  simp only [parseHeaderLine, hid, hty, if_pos]
  refine ⟨trivial, pushPrevious_nextTag st (rawId.map Char.toLower), ?_⟩
  intro it hmem
  cases hc : st.currentItem with
  | none =>
      left
      simpa only [pushPrevious, hc] using hmem
  | some cur =>
      simp only [pushPrevious, hc] at hmem
      split_ifs at hmem <;> aesop

/-- C10: no item object is pushed twice — the ghost allocation tags of the
three returned lists are pairwise distinct for every input — and a `### `
header whose id contains `.types.` yields no item: processing it leaves the
allocation counter unchanged, clears the live item, and everything in the lists
afterwards was already there or was the previously live item. -/
theorem parseApiDoc_item_uniqueness :
    (∀ content : List Char, (docTags (parseApiDoc content)).Nodup) ∧
    (∀ (st : ParseState) (line : List Char) (rest : List (List Char))
       (rawId : List Char), idCapture line = some rawId →
      includesStr (".types.".toList) (rawId.map Char.toLower) = true →
      (parseHeaderLine st line rest).currentItem = none ∧
      (parseHeaderLine st line rest).nextTag = st.nextTag ∧
      (∀ it, it ∈ (parseHeaderLine st line rest).constructs ++
          (parseHeaderLine st line rest).aspects ++
          (parseHeaderLine st line rest).patterns →
        it ∈ st.constructs ++ st.aspects ++ st.patterns ∨
          st.currentItem = some it)) :=
  ⟨parseApiDoc_tags_nodup, parseHeaderLine_types⟩

/-- Witness for C10: concrete run of the parser and a concrete `.types.`
header processed against a state with a live current item. -/
theorem parseApiDoc_item_uniqueness_witness :
    idCapture typesLineEx = some ("lib.types.T".toList) ∧
    includesStr (".types.".toList) (("lib.types.T".toList).map Char.toLower) = true ∧
    (parseHeaderLine parseStateEx typesLineEx []).currentItem = none ∧
    (parseHeaderLine parseStateEx typesLineEx []).nextTag = parseStateEx.nextTag ∧
    (docTags (parseApiDoc apiMdEx)).Nodup :=
  ⟨by decide, by decide,
   (parseApiDoc_item_uniqueness.2 parseStateEx typesLineEx [] ("lib.types.T".toList)
     (by decide) (by decide)).1,
   (parseApiDoc_item_uniqueness.2 parseStateEx typesLineEx [] ("lib.types.T".toList)
     (by decide) (by decide)).2.1,
   parseApiDoc_item_uniqueness.1 apiMdEx⟩
